import Mathlib

set_option maxHeartbeats 1000000
set_option maxRecDepth 100000

/-!
Shallow embedding of the algorithmic core of the notebook
"Hands-on lab/Deep Learning with Time Series.ipynb": the windowing
transform, the two-layer recurrent predictor's forward pass, the training
loop, and the forecast-extraction step.

Library calls are modelled by their documented semantics:

* numpy slicing `source[-a : -b]` clamps negative indices at the head
  (it never wraps), and a row assignment `m[i] = row` into a length-`W`
  row copies an exact-length slice, broadcasts a length-1 slice, and
  raises a shape-mismatch `ValueError` otherwise (modelled as `none`);
* `torch.nn.LSTMCell` and the linear head are external library modules,
  so they appear as unconstrained function fields of `Predictor`; the
  notebook's own sequencing of those calls (the per-step loop, the
  autoregressive continuation, the zero initialization of the hidden and
  cell state, the stacking of the outputs) is translated directly;
* `input.chunk(input.size(1), dim=1)` raises for an empty time axis
  (`chunk` demands a positive chunk count), modelled as `none`;
* the loss criterion, gradient computation and the Adam update are
  library calls, modelled as unconstrained function fields of
  `TrainSetup`; the training loop's own sequencing of them is recorded
  in an event trace.

Numbers that the notebook fixes (`sample_size = 250`, `epochs = 150`,
`days_to_predict = 30`) are kept as named constants.
-/

namespace BatteryForecast

/-- `sample_size = 250` from the notebook. -/
def sample_size : ℕ := 250

/-- `days_to_predict = 30` from the notebook. -/
def days_to_predict : ℕ := 30

/-- `epochs = 150` from the notebook. -/
def epochs : ℕ := 150

/-! ### The windowing transform (notebook cell 13) -/

/-- Python / numpy slice `s[-a : -b]` for `a b ≥ 1`: the effective start
is `max (L - a) 0` and the effective stop is `max (L - b) 0` (negative
indices clamp at the head of the list, they never wrap around).  Natural
subtraction performs exactly this clamping. -/
def npSliceNeg {α : Type} (s : List α) (a b : ℕ) : List α :=
  (s.take (s.length - b)).drop (s.length - a)

/-- `num_samples = source.shape[0] // sample_size`, with the window width
`W` kept as a parameter. -/
def num_samples {α : Type} (s : List α) (W : ℕ) : ℕ := s.length / W

/-- The slice assigned to `input[i]`:
`source[-(i+1) * sample_size - 2 : -i * sample_size - 2]`. -/
def inRow {α : Type} (s : List α) (W i : ℕ) : List α :=
  npSliceNeg s ((i + 1) * W + 2) (i * W + 2)

/-- The slice assigned to `output[i]`:
`source[-(i+1) * sample_size - 1 : -i * sample_size - 1]`. -/
def outRow {α : Type} (s : List α) (W i : ℕ) : List α :=
  npSliceNeg s ((i + 1) * W + 1) (i * W + 1)

/-- numpy broadcasting of a shape-`(k,)` array into a shape-`(W,)` row
for `k ≠ W`: only a length-1 array broadcasts; any other length raises a
shape-mismatch `ValueError` (modelled as `none`). -/
def broadcast1 {α : Type} (W : ℕ) : List α → Option (List α)
  | [x] => some (List.replicate W x)
  | _ => none

/-- numpy assignment of a slice into a fixed length-`W` matrix row:
an exact-length slice is copied, otherwise numpy broadcasting applies. -/
def assignRow {α : Type} (W : ℕ) (row : List α) : Option (List α) :=
  if row.length = W then some row else broadcast1 W row

/-- One iteration of the windowing loop: the two assignments
`input[i] = ...` and `output[i] = ...`. -/
def pairRow {α : Type} (s : List α) (W i : ℕ) : Option (List α × List α) := do
  let a ← assignRow W (inRow s W i)
  let b ← assignRow W (outRow s W i)
  pure (a, b)

/-- The windowing loop body run over a list of row indices; a raised
assignment aborts the whole loop. -/
def rowsFrom {α : Type} (s : List α) (W : ℕ) :
    List ℕ → Option (List (List α × List α))
  | [] => some []
  | i :: is => do
      let p ← pairRow s W i
      let rest ← rowsFrom s W is
      pure (p :: rest)

/-- The windowing transform:
`for i in range(num_samples): input[i] = ...; output[i] = ...`,
returning the pair of matrices, or `none` when a row assignment raises. -/
def windowing {α : Type} (s : List α) (W : ℕ) :
    Option (List (List α) × List (List α)) :=
  (rowsFrom s W (List.range (num_samples s W))).map
    (fun l => (l.map Prod.fst, l.map Prod.snd))

/-- The element `input[i][k]` of the produced input matrix (with a
default value `d` for out-of-range access). -/
def inElem {α : Type} (s : List α) (W i k : ℕ) (d : α) : α :=
  (((windowing s W).getD ([], [])).1.getD i []).getD k d

/-- The element `output[i][k]` of the produced output matrix (with a
default value `d` for out-of-range access). -/
def outElem {α : Type} (s : List α) (W i k : ℕ) (d : α) : α :=
  (((windowing s W).getD ([], [])).2.getD i []).getD k d

/-- Source position `j` is read by some slice of the windowing loop:
it lies in the index range of `input[i]`'s slice or of `output[i]`'s
slice for some produced window `i`.  The ranges are the clamped numpy
ranges of `npSliceNeg`. -/
def usedPos {α : Type} (s : List α) (W j : ℕ) : Prop :=
  ∃ i < num_samples s W,
    (s.length - ((i + 1) * W + 2) ≤ j ∧ j < s.length - (i * W + 2))
    ∨ (s.length - ((i + 1) * W + 1) ≤ j ∧ j < s.length - (i * W + 1))

instance {α : Type} (s : List α) (W j : ℕ) : Decidable (usedPos s W j) :=
  decidable_of_iff (∃ i ∈ List.range (num_samples s W),
      (s.length - ((i + 1) * W + 2) ≤ j ∧ j < s.length - (i * W + 2))
      ∨ (s.length - ((i + 1) * W + 1) ≤ j ∧ j < s.length - (i * W + 1)))
    (by simp [usedPos, List.mem_range])

/-! ### The recurrent predictor (notebook cell 17)

`LSTMPredictor.forward` takes the input sequence as a list of per-step
values (the columns produced by `input.chunk(input.size(1), dim=1)`) and
the `future` horizon.  The two `nn.LSTMCell` modules and the `nn.Linear`
head are external library components, so a `Predictor` carries them as
unconstrained functions; the forward pass itself — zero-initialising the
per-call state, folding the cells over the steps, continuing
autoregressively from the last output, stacking the results — is the
notebook's own code and is translated directly. -/

structure Predictor (T H1 H2 : Type) where
  lstm1 : T → H1 × H1 → H1 × H1
  lstm2 : H1 → H2 × H2 → H2 × H2
  linear : H2 → T

/-- The per-call state: `((h_t, c_t), (h_t2, c_t2))`. -/
def Carried (H1 H2 : Type) : Type := (H1 × H1) × (H2 × H2)

/-- `torch.zeros(...)` for every state component, as built at the top of
every `forward` invocation. -/
def zeroState (H1 H2 : Type) [Zero H1] [Zero H2] : Carried H1 H2 :=
  ((0, 0), (0, 0))

/-- One time step of the forward pass: feed the step input to `lstm1`,
its hidden output to `lstm2`, and that hidden output to the linear head;
return the updated state and the step's prediction. -/
def stepIn {T H1 H2 : Type} (m : Predictor T H1 H2) (st : Carried H1 H2)
    (x : T) : Carried H1 H2 × T :=
  let s1 := m.lstm1 x st.1
  let s2 := m.lstm2 s1.1 st.2
  ((s1, s2), m.linear s2.1)

/-- The first `forward` loop: one `stepIn` per chunk of the input,
collecting the predictions in order. -/
def runSeq {T H1 H2 : Type} (m : Predictor T H1 H2) :
    Carried H1 H2 → List T → Carried H1 H2 × List T
  | st, [] => (st, [])
  | st, x :: xs =>
      let r := stepIn m st x
      let rest := runSeq m r.1 xs
      (rest.1, r.2 :: rest.2)

/-- The second `forward` loop (`for i in range(future)`): each step feeds
the most recent prediction back in as the next input.  Note the original
input sequence is not a parameter: the continuation sees only the carried
state and the last output. -/
def runFuture {T H1 H2 : Type} (m : Predictor T H1 H2) :
    Carried H1 H2 → T → ℕ → List T × Carried H1 H2
  | st, _, 0 => ([], st)
  | st, out, f + 1 =>
      let r := stepIn m st out
      let rest := runFuture m r.1 r.2 f
      (r.2 :: rest.1, rest.2)

/-- The body of `LSTMPredictor.forward` from an explicit initial state:
an empty time axis raises (`chunk` demands a positive chunk count);
otherwise run the input loop, then the future loop seeded with the last
per-step output (the `output` variable), and stack all predictions. -/
def forwardFull {T H1 H2 : Type} (m : Predictor T H1 H2)
    (init : Carried H1 H2) (x : List T) (f : ℕ) :
    Option (List T × Carried H1 H2) :=
  if x.isEmpty then none
  else
    let r := runSeq m init x
    r.2.getLast?.map (fun out =>
      let fut := runFuture m r.1 out f
      (r.2 ++ fut.1, fut.2))

/-- `LSTMPredictor.forward(input, future)`: the state variables
`h_t, c_t, h_t2, c_t2` are assigned fresh zero tensors at the start of
every invocation, so the run always starts from `zeroState`. -/
def forward {T H1 H2 : Type} [Zero H1] [Zero H2] (m : Predictor T H1 H2)
    (x : List T) (f : ℕ) : Option (List T) :=
  (forwardFull m (zeroState H1 H2) x f).map Prod.fst

/-- A hypothetical stateful view of `forward`: were the state variables
module attributes, a call would receive the previously carried state and
leave behind its final state.  The notebook's method body overwrites all
four state variables with zeros before any use, which is why the carried
argument is ignored. -/
def forwardStateful {T H1 H2 : Type} [Zero H1] [Zero H2]
    (m : Predictor T H1 H2) (carried : Carried H1 H2) (x : List T)
    (f : ℕ) : Option (List T) × Carried H1 H2 :=
  match forwardFull m (zeroState H1 H2) x f with
  | some r => (some r.1, r.2)
  | none => (none, zeroState H1 H2)

/-- A sequence of stateful `forward` invocations (separate calls,
batches or epochs), threading the carried state from call to call. -/
def runCalls {T H1 H2 : Type} [Zero H1] [Zero H2] (m : Predictor T H1 H2) :
    Carried H1 H2 → List (List T × ℕ) → List (Option (List T))
  | _, [] => []
  | st, c :: cs =>
      let r := forwardStateful m st c.1 c.2
      r.1 :: runCalls m r.2 cs

/-! ### The training loop (notebook cell 21) and forecast extraction
(notebook cells 25 and 27)

The loop body per epoch is, in source order:
`out = pred(input_t)`; `loss = criteria(out, target_t)`;
`losses += [loss.item()]`; `optimizer.zero_grad()`; `loss.backward()`;
`optimizer.step()`.  The library calls (`criteria`, autograd, Adam) are
unconstrained function fields; the loop's own sequencing is recorded as
an event trace.  `backward` yields the gradient accumulated on top of
the just-zeroed accumulators, as a function of the current parameters
(input and target are fixed inside `TrainSetup`). -/

inductive TrainEv : Type
  | forwardEv
  | lossEv
  | zeroGradEv
  | backwardEv
  | stepEv
  deriving DecidableEq

/-- The events of one epoch of the training loop, in source order. -/
def epochEvents : List TrainEv :=
  [TrainEv.forwardEv, TrainEv.lossEv, TrainEv.zeroGradEv,
   TrainEv.backwardEv, TrainEv.stepEv]

structure TrainSetup (T H1 H2 P G O Q : Type) where
  model : P → Predictor T H1 H2
  input_t : List T
  target_t : List T
  criteria : List T → List T → Q
  zeroGrad : G
  backward : P → G
  step : P → G → O → P × O
  source : List T

structure TrainState (P G O Q : Type) where
  params : P
  grads : G
  opt : O
  losses : List Q
  trace : List TrainEv

/-- One epoch of the training loop.  `forward` is invoked with the
default `future = 0`; a raised forward call aborts the loop. -/
def epochStep {T H1 H2 P G O Q : Type} [Zero H1] [Zero H2]
    (cfg : TrainSetup T H1 H2 P G O Q) (st : TrainState P G O Q) :
    Option (TrainState P G O Q) :=
  match forward (cfg.model st.params) cfg.input_t 0 with
  | none => none
  | some out =>
      let loss := cfg.criteria out cfg.target_t
      let s1 := TrainState.mk st.params st.grads st.opt
        (st.losses ++ [loss])
        (st.trace ++ [TrainEv.forwardEv, TrainEv.lossEv])
      let s2 := TrainState.mk s1.params cfg.zeroGrad s1.opt s1.losses
        (s1.trace ++ [TrainEv.zeroGradEv])
      let s3 := TrainState.mk s2.params (cfg.backward s2.params) s2.opt
        s2.losses (s2.trace ++ [TrainEv.backwardEv])
      let pu := cfg.step s3.params s3.grads s3.opt
      some (TrainState.mk pu.1 s3.grads pu.2 s3.losses
        (s3.trace ++ [TrainEv.stepEv]))

/-- `for epoch in np.arange(1, epochs + 1)`: the epoch body repeated a
fixed number of times, unconditionally — there is no early stopping and
no convergence check. -/
def trainLoop {T H1 H2 P G O Q : Type} [Zero H1] [Zero H2]
    (cfg : TrainSetup T H1 H2 P G O Q) :
    ℕ → TrainState P G O Q → Option (TrainState P G O Q)
  | 0, st => some st
  | n + 1, st => (epochStep cfg st).bind (fun st2 => trainLoop cfg n st2)

/-- Forecast extraction (notebook cells 25 and 27):
`final_input = source[-sample_size:]`;
`with torch.no_grad(): y = pred(final_input, future=days)`;
`future_predictions = y[0, -days:]`.
The call runs under `torch.no_grad()` and performs no optimizer step, so
it leaves the training state — parameters, gradient accumulators,
optimizer state — untouched; the returned state is the input state. -/
def forecastRun {T H1 H2 P G O Q : Type} [Zero H1] [Zero H2]
    (cfg : TrainSetup T H1 H2 P G O Q) (st : TrainState P G O Q)
    (days : ℕ) : TrainState P G O Q × Option (List T) :=
  let final_input := cfg.source.drop (cfg.source.length - sample_size)
  let y := forward (cfg.model st.params) final_input days
  (st, y.map (fun ys => ys.drop (ys.length - days)))

/-! ### Concrete instances used by witnesses and counterexamples.
The cell functions are simple integer maps: the claims under test are
about the notebook's sequencing and shapes, which hold for any cells, and
integer instances let the kernel evaluate them. -/

/-- A concrete predictor instance over ℤ. -/
def wModel : Predictor ℤ ℤ ℤ :=
  Predictor.mk
    (fun x s => (x + s.1, x + s.2))
    (fun a s => (a + s.1, s.2))
    (fun h => h + 1)

/-- A concrete training setup over ℤ. -/
def wSetup : TrainSetup ℤ ℤ ℤ ℤ ℤ ℤ ℤ :=
  TrainSetup.mk
    (fun _ => wModel)
    [1]
    [1]
    (fun _ _ => 0)
    0
    (fun p => p + 1)
    (fun p g o => (p + g, o + 1))
    (List.replicate 250 (1 : ℤ))

/-- A concrete initial training state over ℤ. -/
def wState : TrainState ℤ ℤ ℤ ℤ :=
  TrainState.mk 0 0 0 [] []

/-! ### Lemmas about the windowing transform -/

lemma getD_of_getElem? {α : Type} {l : List α} {n : ℕ} {a : α}
    (h : l[n]? = some a) (d : α) : l.getD n d = a := by
  rw [List.getD_eq_getElem?_getD, h]
  rfl

lemma getD_map_range {β : Type} (f : ℕ → β) {n i : ℕ} (hi : i < n)
    (d : β) : ((List.range n).map f).getD i d = f i := by
  apply getD_of_getElem?
  rw [List.getElem?_map, List.getElem?_range hi]
  rfl

lemma npSliceNeg_length {α : Type} (s : List α) (a b : ℕ) :
    (npSliceNeg s a b).length = (s.length - b) - (s.length - a) := by
  rw [npSliceNeg, List.length_drop, List.length_take]
  omega

lemma npSliceNeg_getD {α : Type} (s : List α) (a b k : ℕ) (d : α)
    (ha : a ≤ s.length) (hab : b ≤ a) (hk : k < a - b) :
    (npSliceNeg s a b).getD k d = s.getD (s.length - a + k) d := by
  have h1 : (npSliceNeg s a b)[k]? = s[s.length - a + k]? := by
    rw [npSliceNeg, List.getElem?_drop,
      List.getElem?_take_of_lt (by omega : s.length - a + k < s.length - b)]
  have h2 : s.length - a + k < s.length := by omega
  rcases hsv : s[s.length - a + k]? with _ | v
  · rw [List.getElem?_eq_none_iff] at hsv
    omega
  · rw [getD_of_getElem? (h1.trans hsv) d, getD_of_getElem? hsv d]

lemma assignRow_eq_some {α : Type} {W : ℕ} {row : List α}
    (h : row.length = W) : assignRow W row = some row := by
  rw [assignRow, if_pos h]

lemma assignRow_eq_none {α : Type} {W : ℕ} {row : List α}
    (h1 : row.length ≠ W) (h2 : row.length ≠ 1) : assignRow W row = none := by
  rw [assignRow, if_neg h1]
  rcases row with _ | ⟨x, _ | ⟨y, t⟩⟩
  · rfl
  · simp at h2
  · rfl

lemma inRow_length {α : Type} {s : List α} {W i : ℕ}
    (hr : 2 ≤ s.length % W) (hi : i < num_samples s W) :
    (inRow s W i).length = W := by
  have hW : 0 < W := by
    rcases Nat.eq_zero_or_pos W with h | h
    · subst h
      rw [num_samples, Nat.div_zero] at hi
      omega
    · exact h
  have hmod : s.length % W < W := Nat.mod_lt _ hW
  have hdm : num_samples s W * W + s.length % W = s.length := by
    rw [num_samples, Nat.mul_comm]
    exact Nat.div_add_mod s.length W
  have hle : (i + 1) * W ≤ num_samples s W * W :=
    Nat.mul_le_mul_right W (Nat.succ_le_of_lt hi)
  have hsplit : (i + 1) * W = i * W + W := by ring
  rw [inRow, npSliceNeg_length]
  rw [hsplit] at hle ⊢
  omega

lemma outRow_length {α : Type} {s : List α} {W i : ℕ}
    (hr : 2 ≤ s.length % W) (hi : i < num_samples s W) :
    (outRow s W i).length = W := by
  have hW : 0 < W := by
    rcases Nat.eq_zero_or_pos W with h | h
    · subst h
      rw [num_samples, Nat.div_zero] at hi
      omega
    · exact h
  have hmod : s.length % W < W := Nat.mod_lt _ hW
  have hdm : num_samples s W * W + s.length % W = s.length := by
    rw [num_samples, Nat.mul_comm]
    exact Nat.div_add_mod s.length W
  have hle : (i + 1) * W ≤ num_samples s W * W :=
    Nat.mul_le_mul_right W (Nat.succ_le_of_lt hi)
  have hsplit : (i + 1) * W = i * W + W := by ring
  rw [outRow, npSliceNeg_length]
  rw [hsplit] at hle ⊢
  omega

lemma pairRow_eq_some {α : Type} {s : List α} {W i : ℕ}
    (hr : 2 ≤ s.length % W) (hi : i < num_samples s W) :
    pairRow s W i = some (inRow s W i, outRow s W i) := by
  rw [pairRow, assignRow_eq_some (inRow_length hr hi),
    assignRow_eq_some (outRow_length hr hi)]
  rfl

lemma rowsFrom_eq_some {α : Type} {s : List α} {W : ℕ} {is : List ℕ}
    (g : ℕ → List α × List α) (h : ∀ i ∈ is, pairRow s W i = some (g i)) :
    rowsFrom s W is = some (is.map g) := by
  induction is with
  | nil => rfl
  | cons j js ih =>
      rw [rowsFrom, h j (by simp), ih (fun i hi => h i (by simp [hi]))]
      rfl

lemma rowsFrom_eq_none {α : Type} {s : List α} {W : ℕ} {is : List ℕ}
    {i : ℕ} (hmem : i ∈ is) (hnone : pairRow s W i = none) :
    rowsFrom s W is = none := by
  induction is with
  | nil => simp at hmem
  | cons j js ih =>
      rcases List.mem_cons.mp hmem with rfl | hmem2
      · rw [rowsFrom, hnone]
        rfl
      · cases hj : pairRow s W j with
        | none =>
            rw [rowsFrom, hj]
            rfl
        | some p =>
            rw [rowsFrom, hj, ih hmem2]
            rfl

lemma windowing_eq_some {α : Type} {s : List α} {W : ℕ}
    (hr : 2 ≤ s.length % W) :
    windowing s W =
      some ((List.range (num_samples s W)).map (fun i => inRow s W i),
            (List.range (num_samples s W)).map (fun i => outRow s W i)) := by
  have h := rowsFrom_eq_some (fun i => (inRow s W i, outRow s W i))
    (fun i hi => pairRow_eq_some hr (List.mem_range.mp hi))
  rw [windowing, h]
  simp [List.map_map, Function.comp]

lemma windowing_eq_of_lt {α : Type} {s : List α} {W : ℕ}
    (h : s.length < W) : windowing s W = some ([], []) := by
  rw [windowing, num_samples, Nat.div_eq_of_lt h, List.range_zero]
  rfl

lemma inRow_last_length {α : Type} {s : List α} (h250 : 250 ≤ s.length)
    (hr : s.length % 250 < 2) :
    (inRow s 250 (num_samples s 250 - 1)).length = 248 + s.length % 250 := by
  rw [inRow, npSliceNeg_length, num_samples]
  have h1 : 1 ≤ s.length / 250 := (Nat.one_le_div_iff (by norm_num)).mpr h250
  have h2 : s.length / 250 - 1 + 1 = s.length / 250 := by omega
  rw [h2]
  omega

lemma windowing250_eq_none {α : Type} {s : List α} (h250 : 250 ≤ s.length)
    (hr : s.length % 250 < 2) : windowing s 250 = none := by
  have hn : 1 ≤ num_samples s 250 := by
    rw [num_samples]
    omega
  have hlen := inRow_last_length h250 hr
  have hassign : assignRow 250 (inRow s 250 (num_samples s 250 - 1)) = none :=
    assignRow_eq_none (by omega) (by omega)
  have hpair : pairRow s 250 (num_samples s 250 - 1) = none := by
    rw [pairRow, hassign]
    rfl
  rw [windowing,
    rowsFrom_eq_none (List.mem_range.mpr (by omega)) hpair]
  rfl

lemma pairRow250_isSome_of_lt {α : Type} {s : List α} {i : ℕ}
    (h250 : 250 ≤ s.length) (hi : i + 1 < num_samples s 250) :
    (pairRow s 250 i).isSome := by
  rw [num_samples] at hi
  have hin : (inRow s 250 i).length = 250 := by
    rw [inRow, npSliceNeg_length]
    omega
  have hout : (outRow s 250 i).length = 250 := by
    rw [outRow, npSliceNeg_length]
    omega
  rw [pairRow, assignRow_eq_some hin, assignRow_eq_some hout]
  rfl

lemma usedPos_iff {α : Type} {s : List α} {W : ℕ} (hW : 0 < W)
    (hWL : W ≤ s.length) (hr : 2 ≤ s.length % W) (j : ℕ) :
    usedPos s W j ↔ (s.length % W ≤ j + 2 ∧ j + 1 < s.length) := by
  have hdm : num_samples s W * W + s.length % W = s.length := by
    rw [num_samples, Nat.mul_comm]
    exact Nat.div_add_mod s.length W
  have hmod : s.length % W < W := Nat.mod_lt _ hW
  have hn1 : 1 ≤ num_samples s W := by
    rw [num_samples]
    exact (Nat.one_le_div_iff hW).mpr hWL
  constructor
  · rintro ⟨i, hi, hcase⟩
    have hle : (i + 1) * W ≤ num_samples s W * W :=
      Nat.mul_le_mul_right W (Nat.succ_le_of_lt hi)
    have hsplit : (i + 1) * W = i * W + W := by ring
    rw [hsplit] at hcase hle
    rcases hcase with ⟨ha, hb⟩ | ⟨ha, hb⟩ <;> omega
  · rintro ⟨h1, h2⟩
    by_cases hj3 : j + 3 ≤ s.length
    · -- position j lies in the input slice of window (s.length-2-j-1)/W
      have f1 : (s.length - 2 - j - 1) / W * W ≤ s.length - 2 - j - 1 :=
        Nat.div_mul_le_self _ _
      have f2 : s.length - 2 - j - 1 < (s.length - 2 - j - 1) / W * W + W := by
        have hq := Nat.div_add_mod (s.length - 2 - j - 1) W
        have hm2 : (s.length - 2 - j - 1) % W < W := Nat.mod_lt _ hW
        have hc : W * ((s.length - 2 - j - 1) / W)
            = (s.length - 2 - j - 1) / W * W := Nat.mul_comm _ _
        omega
      have f3 : (s.length - 2 - j - 1) / W < num_samples s W := by
        by_contra hge
        push_neg at hge
        have hmul : num_samples s W * W ≤ (s.length - 2 - j - 1) / W * W :=
          Nat.mul_le_mul_right W hge
        omega
      refine ⟨(s.length - 2 - j - 1) / W, f3, Or.inl ⟨?_, ?_⟩⟩
      · have hsplit : ((s.length - 2 - j - 1) / W + 1) * W
            = (s.length - 2 - j - 1) / W * W + W := by ring
        rw [hsplit]
        omega
      · omega
    · -- here j = s.length - 2; it lies in the output slice of window 0
      refine ⟨0, hn1, Or.inr ⟨?_, ?_⟩⟩
      · have h01 : (0 + 1) * W = W := by ring
        rw [h01]
        omega
      · rw [Nat.zero_mul]
        omega

lemma usedPos_elem {α : Type} {s : List α} {W : ℕ} (hW : 0 < W)
    (hr : 2 ≤ s.length % W) {j : ℕ} (h : usedPos s W j) (d : α) :
    ∃ i, i < num_samples s W ∧ ∃ k, k < W ∧
      ((inRow s W i).getD k d = s.getD j d
        ∨ (outRow s W i).getD k d = s.getD j d) := by
  have hdm : num_samples s W * W + s.length % W = s.length := by
    rw [num_samples, Nat.mul_comm]
    exact Nat.div_add_mod s.length W
  have hmod : s.length % W < W := Nat.mod_lt _ hW
  obtain ⟨i, hi, hcase⟩ := h
  have hle : (i + 1) * W ≤ num_samples s W * W :=
    Nat.mul_le_mul_right W (Nat.succ_le_of_lt hi)
  have hsplit : (i + 1) * W = i * W + W := by ring
  rw [hsplit] at hcase hle
  rcases hcase with ⟨ha, hb⟩ | ⟨ha, hb⟩
  · refine ⟨i, hi, j - (s.length - (i * W + W + 2)), by omega, Or.inl ?_⟩
    rw [inRow, hsplit,
      npSliceNeg_getD s (i * W + W + 2) (i * W + 2)
        (j - (s.length - (i * W + W + 2))) d (by omega) (by omega) (by omega)]
    have hidx : s.length - (i * W + W + 2)
        + (j - (s.length - (i * W + W + 2))) = j := by omega
    rw [hidx]
  · refine ⟨i, hi, j - (s.length - (i * W + W + 1)), by omega, Or.inr ?_⟩
    rw [outRow, hsplit,
      npSliceNeg_getD s (i * W + W + 1) (i * W + 1)
        (j - (s.length - (i * W + W + 1))) d (by omega) (by omega) (by omega)]
    have hidx : s.length - (i * W + W + 1)
        + (j - (s.length - (i * W + W + 1))) = j := by omega
    rw [hidx]

/-! ### Lemmas about the forward pass and the training loop -/

lemma runSeq_snd_length {T H1 H2 : Type} (m : Predictor T H1 H2)
    (st : Carried H1 H2) (x : List T) :
    (runSeq m st x).2.length = x.length := by
  induction x generalizing st with
  | nil => rfl
  | cons y ys ih => simp [runSeq, ih]

lemma runFuture_fst_length {T H1 H2 : Type} (m : Predictor T H1 H2)
    (st : Carried H1 H2) (out : T) (f : ℕ) :
    (runFuture m st out f).1.length = f := by
  induction f generalizing st out with
  | zero => rfl
  | succ g ih => simp [runFuture, ih]

lemma getLastD_of_ne_nil {β : Type} (l : List β) (h : l ≠ []) (d : β) :
    l.getLastD d = l.getLast h := by
  cases l with
  | nil => exact absurd rfl h
  | cons a t => rfl

lemma forward_exists {T H1 H2 : Type} [Zero H1] [Zero H2]
    (m : Predictor T H1 H2) (x : List T) (f : ℕ) (h : x ≠ []) :
    ∃ ys, forward m x f = some ys
      ∧ ys.length = x.length + f
      ∧ ys.take x.length = (runSeq m (zeroState H1 H2) x).2
      ∧ ∀ d : T, ys.drop x.length
          = (runFuture m (runSeq m (zeroState H1 H2) x).1
              ((runSeq m (zeroState H1 H2) x).2.getLastD d) f).1 := by
  have hlen : (runSeq m (zeroState H1 H2) x).2.length = x.length :=
    runSeq_snd_length m _ x
  have hne : (runSeq m (zeroState H1 H2) x).2 ≠ [] := by
    intro hc
    rw [hc] at hlen
    exact h (List.length_eq_zero.mp hlen.symm)
  have hl : (runSeq m (zeroState H1 H2) x).2.getLast?
      = some ((runSeq m (zeroState H1 H2) x).2.getLast hne) :=
    List.getLast?_eq_getLast _ hne
  have hemp : x.isEmpty = false := by
    cases x with
    | nil => exact absurd rfl h
    | cons a t => rfl
  refine ⟨(runSeq m (zeroState H1 H2) x).2
      ++ (runFuture m (runSeq m (zeroState H1 H2) x).1
          ((runSeq m (zeroState H1 H2) x).2.getLast hne) f).1,
    ?_, ?_, ?_, ?_⟩
  · rw [forward, forwardFull, hemp]
    simp only [Bool.false_eq_true, if_false, hl, Option.map_some']
  · rw [List.length_append, hlen, runFuture_fst_length]
  · rw [← hlen, List.take_left]
  · intro d
    rw [← hlen, List.drop_left, getLastD_of_ne_nil _ hne]

lemma epochStep_spec {T H1 H2 P G O Q : Type} [Zero H1] [Zero H2]
    (cfg : TrainSetup T H1 H2 P G O Q) (st : TrainState P G O Q)
    (h : cfg.input_t ≠ []) :
    ∃ st2, epochStep cfg st = some st2
      ∧ st2.trace = st.trace ++ epochEvents
      ∧ st2.losses.length = st.losses.length + 1 := by
  obtain ⟨ys, hf, -, -, -⟩ :=
    forward_exists (cfg.model st.params) cfg.input_t 0 h
  refine ⟨TrainState.mk
      (cfg.step st.params (cfg.backward st.params) st.opt).1
      (cfg.backward st.params)
      (cfg.step st.params (cfg.backward st.params) st.opt).2
      (st.losses ++ [cfg.criteria ys cfg.target_t])
      (st.trace ++ [TrainEv.forwardEv, TrainEv.lossEv]
        ++ [TrainEv.zeroGradEv] ++ [TrainEv.backwardEv] ++ [TrainEv.stepEv]),
    ?_, ?_, ?_⟩
  · rw [epochStep, hf]
  · simp [epochEvents]
  · simp

lemma trainLoop_spec {T H1 H2 P G O Q : Type} [Zero H1] [Zero H2]
    (cfg : TrainSetup T H1 H2 P G O Q) (st : TrainState P G O Q) (n : ℕ)
    (h : cfg.input_t ≠ []) :
    ∃ st2, trainLoop cfg n st = some st2
      ∧ st2.trace = st.trace ++ (List.replicate n epochEvents).flatten
      ∧ st2.losses.length = st.losses.length + n := by
  induction n generalizing st with
  | zero => exact ⟨st, rfl, by simp, by simp⟩
  | succ k ih =>
      obtain ⟨st1, h1, htr1, hls1⟩ := epochStep_spec cfg st h
      obtain ⟨st2, h2, htr2, hls2⟩ := ih st1
      refine ⟨st2, ?_, ?_, ?_⟩
      · rw [trainLoop, h1, Option.some_bind]
        exact h2
      · rw [htr2, htr1, List.replicate_succ, List.flatten_cons,
          List.append_assoc]
      · omega

/-! ### Claim theorems -/

/-- Claim C1: every element pair produced by the windowing transform
(`sample_size` = 250) satisfies the shift-by-one invariant — the input
element `input[i][k]` is the source element at position
`L - ((i+1)*250 + 2) + k`, and the output element `output[i][k]` is the
source element at the immediately following position. -/
theorem windowing_shift_invariant {α : Type} (s : List α) (d : α)
    (h : (windowing s sample_size).isSome) (i k : ℕ)
    (hi : i < num_samples s sample_size) (hk : k < sample_size) :
    inElem s sample_size i k d
        = s.getD (s.length - ((i + 1) * sample_size + 2) + k) d
    ∧ outElem s sample_size i k d
        = s.getD ((s.length - ((i + 1) * sample_size + 2) + k) + 1) d := by
  simp only [sample_size] at h hi hk ⊢
  by_cases hsmall : s.length < 250
  · rw [num_samples, Nat.div_eq_of_lt hsmall] at hi
    omega
  · push_neg at hsmall
    have hr : 2 ≤ s.length % 250 := by
      by_contra hlt
      push_neg at hlt
      rw [windowing250_eq_none hsmall hlt] at h
      simp at h
    have hw := windowing_eq_some (s := s) (W := 250) hr
    have ha : (i + 1) * 250 + 2 ≤ s.length := by
      rw [num_samples] at hi
      omega
    have hw1 : ((windowing s 250).getD ([], [])).1
        = (List.range (num_samples s 250)).map (fun i => inRow s 250 i) := by
      rw [hw]
      rfl
    have hw2 : ((windowing s 250).getD ([], [])).2
        = (List.range (num_samples s 250)).map (fun i => outRow s 250 i) := by
      rw [hw]
      rfl
    constructor
    · rw [inElem, hw1, getD_map_range (fun i => inRow s 250 i) hi, inRow,
        npSliceNeg_getD s ((i + 1) * 250 + 2) (i * 250 + 2) k d ha
          (by omega) (by omega)]
    · rw [outElem, hw2, getD_map_range (fun i => outRow s 250 i) hi, outRow,
        npSliceNeg_getD s ((i + 1) * 250 + 1) (i * 250 + 1) k d
          (by omega) (by omega) (by omega)]
      have hidx : s.length - ((i + 1) * 250 + 1) + k
          = s.length - ((i + 1) * 250 + 2) + k + 1 := by omega
      rw [hidx]

/-- Witness for C1: the ramp of length 252 (remainder 2) produces one
window, and the invariant is checked at `i = 0`, `k = 0`. -/
theorem windowing_shift_invariant_witness :
    ((windowing (List.range 252) sample_size).isSome
      ∧ 0 < num_samples (List.range 252) sample_size ∧ 0 < sample_size)
    ∧ (inElem (List.range 252) sample_size 0 0 0
          = (List.range 252).getD
              ((List.range 252).length - ((0 + 1) * sample_size + 2) + 0) 0
        ∧ outElem (List.range 252) sample_size 0 0 0
          = (List.range 252).getD
              (((List.range 252).length - ((0 + 1) * sample_size + 2) + 0) + 1)
              0) :=
  ⟨by decide,
    windowing_shift_invariant (List.range 252) 0 (by decide) 0 0
      (by decide) (by decide)⟩

/-- Claim C2 counterexample: for the ramp of length 253 with
`sample_size` = 250 the transform succeeds and produces
`floor(253/250) = 1` sample pair, yet the most recent element of the
series — the tail element `S[252] = 252` — is read by no window slice and
appears in neither produced matrix.  This refutes "no element at the tail
of S is excluded". -/
theorem windowing_tail_excluded_cex :
    (windowing (List.range 253) sample_size).isSome
    ∧ num_samples (List.range 253) sample_size = 1
    ∧ (List.range 253).getD 252 0 = 252
    ∧ ¬ usedPos (List.range 253) sample_size 252
    ∧ (252 : ℕ) ∉
        ((((windowing (List.range 253) sample_size).getD ([], [])).1.flatten)
          ++ (((windowing (List.range 253) sample_size).getD ([], [])).2.flatten)) :=
  ⟨by decide, by decide, by decide, by decide, by decide⟩

/-- Claim C2 as amended: when `0 < W ≤ L` and `L mod W ≥ 2` the transform
produces exactly `floor(L/W)` sample pairs, and the excluded source
positions are exactly the earliest `(L mod W) - 2` positions at the head
together with the single most recent position `L - 1` at the tail. -/
theorem windowing_head_tail_exclusion {α : Type} (s : List α) (W : ℕ)
    (hW : 0 < W) (hWL : W ≤ s.length) (hr : 2 ≤ s.length % W) :
    (∃ p, windowing s W = some p
        ∧ p.1.length = num_samples s W ∧ p.2.length = num_samples s W)
    ∧ ∀ j, j < s.length →
        (¬ usedPos s W j ↔ (j + 2 < s.length % W ∨ j = s.length - 1)) := by
  refine ⟨⟨_, windowing_eq_some hr, by simp, by simp⟩, fun j hj => ?_⟩
  rw [usedPos_iff hW hWL hr]
  omega

/-- Witness for the amended C2 at the ramp of length 253, `W = 250`. -/
theorem windowing_head_tail_exclusion_witness :
    (0 < 250 ∧ 250 ≤ (List.range 253).length
      ∧ 2 ≤ (List.range 253).length % 250)
    ∧ ((∃ p, windowing (List.range 253) 250 = some p
          ∧ p.1.length = num_samples (List.range 253) 250
          ∧ p.2.length = num_samples (List.range 253) 250)
        ∧ ∀ j, j < (List.range 253).length →
            (¬ usedPos (List.range 253) 250 j
              ↔ (j + 2 < (List.range 253).length % 250
                  ∨ j = (List.range 253).length - 1))) :=
  ⟨by decide,
    windowing_head_tail_exclusion (List.range 253) 250 (by decide)
      (by decide) (by decide)⟩

/-- Claim C3 counterexample: for the ramp `S = [0, ..., 999]` and
`sample_size` = 250 the code computes `num_samples = 1000 // 250 = 4`,
not 3, and the windowing loop raises instead of producing sample pairs. -/
theorem windowing_ramp1000_cex :
    num_samples (List.range 1000) sample_size ≠ 3
    ∧ windowing (List.range 1000) sample_size = none :=
  ⟨by decide, by decide⟩

/-- Claim C3 as amended: for the ramp `S = [0, ..., 999]` and
`sample_size` = 250 the code computes `num_samples = 4`; windows 0, 1 and
2 are assigned exactly their source slices and satisfy the shift-by-one
invariant — `input[i][k]` is the source element at position
`L - ((i+1)*250 + 2) + k` and `output[i][k]` is the source element at the
immediately following position — but the earliest window's input slice
`source[-1002:-752]` clamps at the head and yields only 248 elements, so
its assignment raises a shape-mismatch error and no result is produced. -/
theorem windowing_ramp1000_behavior :
    num_samples (List.range 1000) sample_size = 4
    ∧ windowing (List.range 1000) sample_size = none
    ∧ (inRow (List.range 1000) sample_size 3).length = 248
    ∧ assignRow sample_size (inRow (List.range 1000) sample_size 3) = none
    ∧ (∀ i, i < 3 → pairRow (List.range 1000) sample_size i
        = some (inRow (List.range 1000) sample_size i,
                outRow (List.range 1000) sample_size i))
    ∧ ∀ i, i < 3 → ∀ k, k < sample_size →
        (inRow (List.range 1000) sample_size i).getD k 0
            = (List.range 1000).getD
                ((List.range 1000).length - ((i + 1) * sample_size + 2) + k) 0
        ∧ (outRow (List.range 1000) sample_size i).getD k 0
            = (List.range 1000).getD
                (((List.range 1000).length - ((i + 1) * sample_size + 2) + k)
                  + 1) 0 := by
  refine ⟨by decide, by decide, by decide, by decide, ?_, ?_⟩
  · intro i hi
    simp only [sample_size]
    have hin : (inRow (List.range 1000) 250 i).length = 250 := by
      rw [inRow, npSliceNeg_length, List.length_range]
      omega
    have hout : (outRow (List.range 1000) 250 i).length = 250 := by
      rw [outRow, npSliceNeg_length, List.length_range]
      omega
    rw [pairRow, assignRow_eq_some hin, assignRow_eq_some hout]
    rfl
  · intro i hi k hk
    simp only [sample_size] at hk ⊢
    have hL : (List.range 1000).length = 1000 := List.length_range 1000
    constructor
    · rw [inRow, npSliceNeg_getD (List.range 1000) ((i + 1) * 250 + 2)
          (i * 250 + 2) k 0 (by rw [hL]; omega) (by omega) (by omega)]
    · rw [outRow, npSliceNeg_getD (List.range 1000) ((i + 1) * 250 + 1)
          (i * 250 + 1) k 0 (by rw [hL]; omega) (by omega) (by omega)]
      have hidx : (List.range 1000).length - ((i + 1) * 250 + 1) + k
          = (List.range 1000).length - ((i + 1) * 250 + 2) + k + 1 := by
        rw [hL]
        omega
      rw [hidx]

/-- Claim C4: for a series shorter than `sample_size + 2` the windowing
transform either produces zero sample pairs (when `L < sample_size`, the
loop body never runs) or raises an explicit shape-mismatch error (when
`sample_size ≤ L < sample_size + 2`); it never wraps indices (the slice
model `npSliceNeg` clamps negative indices at the head). -/
theorem windowing_short_series {α : Type} (s : List α)
    (h : s.length < sample_size + 2) :
    (s.length < sample_size → windowing s sample_size = some ([], []))
    ∧ (sample_size ≤ s.length → windowing s sample_size = none) := by
  simp only [sample_size] at *
  exact ⟨fun h2 => windowing_eq_of_lt h2,
    fun h2 => windowing250_eq_none h2 (by omega)⟩

/-- Witness for C4 at the ramp of length 251 (error branch). -/
theorem windowing_short_series_witness :
    ((List.range 251).length < sample_size + 2)
    ∧ (((List.range 251).length < sample_size →
          windowing (List.range 251) sample_size = some ([], []))
        ∧ (sample_size ≤ (List.range 251).length →
          windowing (List.range 251) sample_size = none)) :=
  ⟨by decide, windowing_short_series (List.range 251) (by decide)⟩

/-- Claim C9: for `L ≥ 250 = sample_size`, the windowing transform
succeeds exactly when `L mod 250 ≥ 2`; when `L mod 250 < 2` it raises
while constructing the earliest window `num_samples - 1`, whose input
slice clamps at the head and yields fewer than 250 elements, so its row
assignment is a shape-mismatch error — every younger window is still
assigned successfully. -/
theorem windowing_remainder_failure {α : Type} (s : List α)
    (h : sample_size ≤ s.length) :
    ((windowing s sample_size).isSome ↔ 2 ≤ s.length % sample_size)
    ∧ (s.length % sample_size < 2 →
        windowing s sample_size = none
        ∧ (inRow s sample_size (num_samples s sample_size - 1)).length
            < sample_size
        ∧ assignRow sample_size
            (inRow s sample_size (num_samples s sample_size - 1)) = none
        ∧ ∀ i, i + 1 < num_samples s sample_size →
            (pairRow s sample_size i).isSome) := by
  simp only [sample_size] at *
  constructor
  · constructor
    · intro hs
      by_contra hlt
      push_neg at hlt
      rw [windowing250_eq_none h hlt] at hs
      simp at hs
    · intro hr
      rw [windowing_eq_some hr]
      rfl
  · intro hr
    refine ⟨windowing250_eq_none h hr, ?_, ?_,
      fun i hi => pairRow250_isSome_of_lt h hi⟩
    · rw [inRow_last_length h hr]
      omega
    · exact assignRow_eq_none (by rw [inRow_last_length h hr]; omega)
        (by rw [inRow_last_length h hr]; omega)

/-- Witness for C9 at the ramp of length 500 (remainder 0). -/
theorem windowing_remainder_failure_witness :
    (sample_size ≤ (List.range 500).length)
    ∧ (((windowing (List.range 500) sample_size).isSome
          ↔ 2 ≤ (List.range 500).length % sample_size)
        ∧ ((List.range 500).length % sample_size < 2 →
            windowing (List.range 500) sample_size = none
            ∧ (inRow (List.range 500) sample_size
                (num_samples (List.range 500) sample_size - 1)).length
                < sample_size
            ∧ assignRow sample_size
                (inRow (List.range 500) sample_size
                  (num_samples (List.range 500) sample_size - 1)) = none
            ∧ ∀ i, i + 1 < num_samples (List.range 500) sample_size →
                (pairRow (List.range 500) sample_size i).isSome)) :=
  ⟨by decide, windowing_remainder_failure (List.range 500) (by decide)⟩

/-- Claim C5: on a nonempty input of length `N` with horizon `F`, the
forward pass returns exactly `N + F` predictions; the first `N` are the
input-loop outputs, and the trailing `F` are produced by `runFuture`,
whose only data arguments are the carried state after the input loop and
the last input-loop output — the original input sequence is not an
argument of the autoregressive continuation. -/
theorem forward_length_and_autoregressive (T H1 H2 : Type) [Zero H1]
    [Zero H2] (m : Predictor T H1 H2) (x : List T) (f : ℕ) (h : x ≠ []) :
    ∃ ys, forward m x f = some ys
      ∧ ys.length = x.length + f
      ∧ ys.take x.length = (runSeq m (zeroState H1 H2) x).2
      ∧ ∀ d : T, ys.drop x.length
          = (runFuture m (runSeq m (zeroState H1 H2) x).1
              ((runSeq m (zeroState H1 H2) x).2.getLastD d) f).1 :=
  forward_exists m x f h

/-- Witness for C5 with the concrete integer predictor, `N = 2`,
`F = 2`. -/
theorem forward_length_and_autoregressive_witness :
    ([(1 : ℤ), 2] ≠ ([] : List ℤ))
    ∧ ∃ ys, forward wModel [(1 : ℤ), 2] 2 = some ys
        ∧ ys.length = [(1 : ℤ), 2].length + 2
        ∧ ys.take [(1 : ℤ), 2].length
            = (runSeq wModel (zeroState ℤ ℤ) [(1 : ℤ), 2]).2
        ∧ ∀ d : ℤ, ys.drop [(1 : ℤ), 2].length
            = (runFuture wModel (runSeq wModel (zeroState ℤ ℤ) [(1 : ℤ), 2]).1
                ((runSeq wModel (zeroState ℤ ℤ) [(1 : ℤ), 2]).2.getLastD d)
                2).1 :=
  ⟨by decide,
    forward_length_and_autoregressive ℤ ℤ ℤ wModel [(1 : ℤ), 2] 2 (by decide)⟩

/-- Claim C6: a sequence of forward invocations threaded through any
hypothetical carried state produces exactly the outputs of independent
pure `forward` calls — no state persists between calls, batches or
epochs — and each invocation starts its run from the all-zero state
(`forward` is the run of the method body from `zeroState`). -/
theorem forward_state_reset (T H1 H2 : Type) [Zero H1] [Zero H2]
    (m : Predictor T H1 H2) (st : Carried H1 H2)
    (calls : List (List T × ℕ)) :
    runCalls m st calls = calls.map (fun c => forward m c.1 c.2)
    ∧ ∀ (x : List T) (f : ℕ),
        forward m x f = (forwardFull m (zeroState H1 H2) x f).map Prod.fst := by
  constructor
  · induction calls generalizing st with
    | nil => rfl
    | cons c cs ih =>
        have hhead : (forwardStateful m st c.1 c.2).1 = forward m c.1 c.2 := by
          cases hf : forwardFull m (zeroState H1 H2) c.1 c.2 <;>
            simp [forwardStateful, forward, hf]
        rw [runCalls, hhead, ih, List.map_cons]
  · intro x f
    rfl

/-- Claim C10: the forward pass raises on an input with zero time steps
(`input.chunk(input.size(1), dim=1)` demands a positive chunk count, and
the future loop would read the never-assigned per-step `output`); it
never returns an empty or future-only prediction sequence. -/
theorem forward_empty_input_fails (T H1 H2 : Type) [Zero H1] [Zero H2]
    (m : Predictor T H1 H2) (f : ℕ) : forward m [] f = none := rfl

/-- Claim C7 counterexample: one epoch of the training loop at a
concrete setup emits the event trace forward, loss, zero-gradients,
backward, update — the gradient accumulators are zeroed after the loss
is recorded, not at the start of the epoch, so the claimed order
initialize, forward, loss, backward, update is not the executed one. -/
theorem training_order_cex :
    (trainLoop wSetup 1 wState).map TrainState.trace
        = some [TrainEv.forwardEv, TrainEv.lossEv, TrainEv.zeroGradEv,
            TrainEv.backwardEv, TrainEv.stepEv]
    ∧ [TrainEv.forwardEv, TrainEv.lossEv, TrainEv.zeroGradEv,
        TrainEv.backwardEv, TrainEv.stepEv]
      ≠ [TrainEv.zeroGradEv, TrainEv.forwardEv, TrainEv.lossEv,
          TrainEv.backwardEv, TrainEv.stepEv] :=
  ⟨by decide, by decide⟩

/-- Claim C7 as amended: every epoch executes forward (the predictor on
the full training input with `future = 0`), then loss (appended to the
loss history), then gradient zeroing, then backward, then the optimizer
update, and this sequence repeats unconditionally for the requested
number of epochs — the loop always succeeds on a nonempty training
input, the trace is exactly `n` copies of the epoch events, and the loss
history grows by exactly one entry per epoch. -/
theorem training_epoch_order {T H1 H2 P G O Q : Type} [Zero H1] [Zero H2]
    (cfg : TrainSetup T H1 H2 P G O Q) (st : TrainState P G O Q) (n : ℕ)
    (h : cfg.input_t ≠ []) :
    ∃ st2, trainLoop cfg n st = some st2
      ∧ st2.trace = st.trace ++ (List.replicate n epochEvents).flatten
      ∧ st2.losses.length = st.losses.length + n :=
  trainLoop_spec cfg st n h

/-- Witness for the amended C7: two epochs of the concrete integer
setup. -/
theorem training_epoch_order_witness :
    (wSetup.input_t ≠ [])
    ∧ ∃ st2, trainLoop wSetup 2 wState = some st2
        ∧ st2.trace = wState.trace ++ (List.replicate 2 epochEvents).flatten
        ∧ st2.losses.length = wState.losses.length + 2 :=
  ⟨by decide, training_epoch_order wSetup wState 2 (by decide)⟩

/-- Claim C8: forecast extraction takes exactly the trailing
`sample_size` observations of the source series as the inference input,
runs the predictor on them with the requested `future = days` horizon,
returns the trailing `days` entries of the `sample_size + days`-long
output sequence, and — running under `torch.no_grad()` with no optimizer
step — returns the training state (parameters, gradient accumulators,
optimizer state, histories) unchanged. -/
theorem forecast_extraction_spec {T H1 H2 P G O Q : Type} [Zero H1]
    [Zero H2] (cfg : TrainSetup T H1 H2 P G O Q) (st : TrainState P G O Q)
    (days : ℕ) (h : sample_size ≤ cfg.source.length) :
    (forecastRun cfg st days).1 = st
    ∧ (cfg.source.drop (cfg.source.length - sample_size)).length
        = sample_size
    ∧ ∃ ys, forward (cfg.model st.params)
          (cfg.source.drop (cfg.source.length - sample_size)) days = some ys
        ∧ ys.length = sample_size + days
        ∧ (forecastRun cfg st days).2 = some (ys.drop sample_size) := by
  have hlen : (cfg.source.drop (cfg.source.length - sample_size)).length
      = sample_size := by
    rw [List.length_drop]
    omega
  have hne : cfg.source.drop (cfg.source.length - sample_size) ≠ [] := by
    intro hc
    rw [hc] at hlen
    simp [sample_size] at hlen
  obtain ⟨ys, hf, hyl, -, -⟩ :=
    forward_exists (cfg.model st.params)
      (cfg.source.drop (cfg.source.length - sample_size)) days hne
  rw [hlen] at hyl
  refine ⟨rfl, hlen, ys, hf, hyl, ?_⟩
  show (forward (cfg.model st.params)
      (cfg.source.drop (cfg.source.length - sample_size)) days).map
        (fun ys => ys.drop (ys.length - days)) = some (ys.drop sample_size)
  rw [hf, Option.map_some']
  have hd : ys.length - days = sample_size := by omega
  rw [hd]

/-- Witness for C8: the concrete integer setup, whose source series has
exactly `sample_size` observations, with the default 30-day horizon. -/
theorem forecast_extraction_spec_witness :
    (sample_size ≤ wSetup.source.length)
    ∧ ((forecastRun wSetup wState days_to_predict).1 = wState
        ∧ (wSetup.source.drop
            (wSetup.source.length - sample_size)).length = sample_size
        ∧ ∃ ys, forward (wSetup.model wState.params)
              (wSetup.source.drop (wSetup.source.length - sample_size))
              days_to_predict = some ys
            ∧ ys.length = sample_size + days_to_predict
            ∧ (forecastRun wSetup wState days_to_predict).2
                = some (ys.drop sample_size)) :=
  ⟨by decide,
    forecast_extraction_spec wSetup wState days_to_predict (by decide)⟩

end BatteryForecast
